import Mathlib

/-!
Verification of the `pf-fact-check` pipeline (src/pf-fact-check.py).

Shallow embedding conventions:
* Python floats are modelled as exact rationals (`ℚ`); the rating table and
  the averages in the claims only involve exact decimal constants.
* Network I/O is modelled by passing the response data as a parameter:
  `Option String` for the article fetch (`none` = `requests.RequestException`,
  `some text` = the concatenated paragraph text of the parsed page), and
  `Nat → PageResult` for the paginated Politifact search (per page number).
* The `while True` pagination loop, which the code does not bound, is run on
  explicit fuel; theorems assume the fuel covers the pages actually visited.
* The filesystem is a record of existing directories and a file store where
  `List.lookup` returns the most recent write (modelling overwrite).
-/

/-- A fact-check record: `{'title': ..., 'rating': ...}` as built in
`scrape_politifact_for_speaker`. -/
structure Statement where
  title : String
  rating : String
deriving DecidableEq, Repr

/-- The dictionary `rating_values` together with `.get(rating, 0)` from
`calculate_speaker_score`: a total map sending unknown labels to `0`. -/
def rating_values (r : String) : ℚ :=
  if r = "True" then 1
  else if r = "Mostly True" then 0.8
  else if r = "Half True" then 0.5
  else if r = "Mostly False" then 0.2
  else if r = "False" then 0
  else if r = "Pants on Fire!" then -1
  else 0

/-- `calculate_speaker_score`: maps each record's rating through
`rating_values` and returns `sum(scores)/len(scores) if scores else 0`. -/
def calculate_speaker_score (statements : List Statement) : ℚ :=
  let scores := statements.map (fun st => rating_values st.rating)
  if scores = [] then 0 else scores.sum / (scores.length : ℚ)

/-- C2: the rating table sends each of the six labels to its exact constant,
and every other string to 0. -/
theorem rating_values_table :
    (rating_values "True" = 1 ∧ rating_values "Mostly True" = 0.8 ∧
     rating_values "Half True" = 0.5 ∧ rating_values "Mostly False" = 0.2 ∧
     rating_values "False" = 0 ∧ rating_values "Pants on Fire!" = -1) ∧
    ∀ r : String,
      r ∉ ["True", "Mostly True", "Half True", "Mostly False", "False",
           "Pants on Fire!"] → rating_values r = 0 := by
  constructor
  · refine ⟨rfl, rfl, rfl, rfl, rfl, rfl⟩
  · intro r hr
    simp only [List.mem_cons, List.not_mem_nil, or_false, not_or] at hr
    obtain ⟨h1, h2, h3, h4, h5, h6⟩ := hr
    simp [rating_values, h1, h2, h3, h4, h5, h6]

/-- Witness for C2: a label outside the table maps to 0. -/
theorem rating_values_table_witness : rating_values "Bananas" = 0 :=
  rating_values_table.2 "Bananas" (by decide)

/-- C3: the score is the arithmetic mean of the mapped rating values on a
non-empty record list, 0 on the empty list, and `1/2` on the two-record list
rated `True` and `False`. -/
theorem calculate_speaker_score_mean :
    (∀ sts : List Statement, sts ≠ [] →
      calculate_speaker_score sts =
        (sts.map (fun st => rating_values st.rating)).sum / (sts.length : ℚ)) ∧
    calculate_speaker_score [] = 0 ∧
    calculate_speaker_score
      [⟨"a", "True"⟩, ⟨"b", "False"⟩] = 1/2 := by
  refine ⟨?_, rfl, by simp [calculate_speaker_score, rating_values]⟩
  intro sts hne
  have hmap : sts.map (fun st => rating_values st.rating) ≠ [] := by
    simpa using hne
  simp [calculate_speaker_score, hmap]

/-- Witness for C3: the mean formula evaluated on a concrete singleton list. -/
theorem calculate_speaker_score_mean_witness :
    calculate_speaker_score [⟨"x", "Half True"⟩] =
      ((([⟨"x", "Half True"⟩] : List Statement).map
        (fun st => rating_values st.rating)).sum /
        (([⟨"x", "Half True"⟩] : List Statement).length : ℚ)) :=
  calculate_speaker_score_mean.1 [⟨"x", "Half True"⟩] (by decide)

/-- Every rating value, known or not, lies in `[-1, 1]`. -/
theorem rating_values_bounds (r : String) :
    -1 ≤ rating_values r ∧ rating_values r ≤ 1 := by
  unfold rating_values
  split_ifs <;> norm_num

/-- C10: the speaker score always lies in the closed interval `[-1, 1]`. -/
theorem calculate_speaker_score_bounds (sts : List Statement) :
    -1 ≤ calculate_speaker_score sts ∧ calculate_speaker_score sts ≤ 1 := by
  unfold calculate_speaker_score
  by_cases h : sts.map (fun st => rating_values st.rating) = []
  · simp [h]
  · simp only [h, if_neg, if_false]
    set scores := sts.map (fun st => rating_values st.rating) with hs
    have hlen : 0 < (scores.length : ℚ) := by
      have : scores ≠ [] := h
      have : 0 < scores.length := List.length_pos.mpr this
      exact_mod_cast this
    have hub : scores.sum ≤ scores.length • (1 : ℚ) := by
      refine List.sum_le_card_nsmul scores 1 ?_
      intro x hx
      obtain ⟨st, _, rfl⟩ := List.mem_map.1 hx
      exact (rating_values_bounds st.rating).2
    have hlb : scores.length • (-1 : ℚ) ≤ scores.sum := by
      refine List.card_nsmul_le_sum scores (-1) ?_
      intro x hx
      obtain ⟨st, _, rfl⟩ := List.mem_map.1 hx
      exact (rating_values_bounds st.rating).1
    rw [nsmul_eq_mul] at hub hlb
    constructor
    · rw [le_div_iff₀ hlen]
      calc (-1 : ℚ) * scores.length = scores.length * (-1) := by ring
        _ ≤ scores.sum := hlb
    · rw [div_le_one hlen]
      calc scores.sum ≤ (scores.length : ℚ) * 1 := hub
        _ = scores.length := by ring

/-- Outcome of one paginated GET in `scrape_politifact_for_speaker`:
`err` is a `requests.RequestException` (transport or `raise_for_status`);
`ok rs` is a successful response whose parsed `o-listicle__item` entries
yield the records `rs`. -/
inductive PageResult where
  | ok (results : List Statement)
  | err
deriving DecidableEq, Repr

/-- The `while True` pagination loop of `scrape_politifact_for_speaker`,
starting at `page`, with accumulator `acc` (the `statements` list). The
second component counts the HTTP requests issued. The loop is unbounded in
the source; `fuel` makes it total, and theorems supply enough fuel. -/
def scrapeGo (fetch : Nat → PageResult) : Nat → Nat → List Statement →
    List Statement × Nat
  | 0, _, acc => (acc, 0)
  | fuel + 1, page, acc =>
    match fetch page with
    | PageResult.err => (acc, 1)
    | PageResult.ok [] => (acc, 1)
    | PageResult.ok (r :: rs) =>
      let res := scrapeGo fetch fuel (page + 1) (acc ++ (r :: rs))
      (res.1, res.2 + 1)

/-- `scrape_politifact_for_speaker`: runs the loop from page 1 with an empty
`statements` list and returns the collected records (the source's return
value in both the normal and the exception path). -/
def scrape_politifact_for_speaker (fetch : Nat → PageResult) (fuel : Nat) :
    List Statement :=
  (scrapeGo fetch fuel 1 []).1

/-- Number of page requests issued by `scrape_politifact_for_speaker`. -/
def scrape_requests (fetch : Nat → PageResult) (fuel : Nat) : Nat :=
  (scrapeGo fetch fuel 1 []).2

/-- Loop invariant for the pagination loop: if the `n` pages starting at `p`
are successful and non-empty and the run is stopped at page `p + n` (by an
error or by an empty page), the loop returns the accumulator followed by
those pages' entries in order, after `n + 1` requests. -/
theorem scrapeGo_spec (fetch : Nat → PageResult) (entries : Nat → List Statement)
    (n : Nat) :
    ∀ (p : Nat) (acc : List Statement) (fuel : Nat),
    (∀ i, i < n → fetch (p + i) = PageResult.ok (entries (p + i)) ∧
      entries (p + i) ≠ []) →
    (fetch (p + n) = PageResult.err ∨ fetch (p + n) = PageResult.ok []) →
    n + 1 ≤ fuel →
    scrapeGo fetch fuel p acc =
      (acc ++ ((List.range n).map (fun i => entries (p + i))).flatten, n + 1) := by
  induction n with
  | zero =>
    intro p acc fuel _ hstop hfuel
    obtain ⟨f, rfl⟩ : ∃ f, fuel = f + 1 :=
      ⟨fuel - 1, by omega⟩
    rcases hstop with h | h <;> simp [scrapeGo, Nat.add_zero] at h ⊢ <;> rw [h]
  | succ n ih =>
    intro p acc fuel hpages hstop hfuel
    obtain ⟨f, rfl⟩ : ∃ f, fuel = f + 1 := ⟨fuel - 1, by omega⟩
    have hp := hpages 0 (Nat.succ_pos n)
    rw [Nat.add_zero] at hp
    obtain ⟨hfetch, hne⟩ := hp
    obtain ⟨e, es, hent⟩ : ∃ e es, entries p = e :: es := by
      cases h : entries p with
      | nil => exact absurd h hne
      | cons e es => exact ⟨e, es, rfl⟩
    have ihres := ih (p + 1) (acc ++ entries p) f
      (fun i hi => by
        have := hpages (i + 1) (Nat.succ_lt_succ hi)
        rwa [show p + (i + 1) = p + 1 + i by omega] at this)
      (by rwa [show p + 1 + n = p + (n + 1) by omega])
      (by omega)
    simp only [scrapeGo, hfetch, hent]
    rw [← hent, ihres]
    dsimp only
    rw [Prod.mk.injEq]
    refine ⟨?_, rfl⟩
    have hfun : ((fun i => entries (p + i)) ∘ Nat.succ) =
        fun i => entries (p + 1 + i) := by
      funext i
      show entries (p + (i + 1)) = entries (p + 1 + i)
      congr 1
      omega
    simp [List.range_succ_eq_map, List.map_map, hfun, List.append_assoc]

/-- C4: when page `N` is the first page with zero entries (pages `1..N-1`
being successful and non-empty), the lookup issues exactly `N` requests and
returns the concatenation of the entries of pages `1..N-1` in page order. -/
theorem scrape_pagination_termination (fetch : Nat → PageResult)
    (entries : Nat → List Statement) (N fuel : Nat) (hN : 1 ≤ N)
    (hpages : ∀ k, 1 ≤ k → k < N →
      fetch k = PageResult.ok (entries k) ∧ entries k ≠ [])
    (hstop : fetch N = PageResult.ok []) (hfuel : N ≤ fuel) :
    scrape_politifact_for_speaker fetch fuel =
      ((List.range (N - 1)).map (fun i => entries (i + 1))).flatten ∧
    scrape_requests fetch fuel = N := by
  have hspec := scrapeGo_spec fetch entries (N - 1) 1 [] fuel
    (fun i hi => by
      have := hpages (1 + i) (by omega) (by omega)
      exact this)
    (by rw [show 1 + (N - 1) = N by omega]; exact Or.inr hstop)
    (by omega)
  have hfun : (fun i => entries (1 + i)) = fun i => entries (i + 1) := by
    funext i
    congr 1
    omega
  constructor
  · rw [scrape_politifact_for_speaker, hspec]
    simp only [List.nil_append, hfun]
  · rw [scrape_requests, hspec]
    omega

/-- Concrete paginated site for the C4 witness: page 1 has one record,
page 2 and beyond are empty. -/
def pfFetchEmptyAt2 (k : Nat) : PageResult :=
  if k = 1 then PageResult.ok [⟨"t", "True"⟩] else PageResult.ok []

/-- The entries of `pfFetchEmptyAt2` per page. -/
def pfEntriesEx (k : Nat) : List Statement :=
  if k = 1 then [⟨"t", "True"⟩] else []

/-- Witness for C4: with the first empty page at `N = 2` the lookup stops
after 2 requests and returns page 1's entries. -/
theorem scrape_pagination_termination_witness :
    scrape_politifact_for_speaker pfFetchEmptyAt2 2 =
      ((List.range 1).map (fun i => pfEntriesEx (i + 1))).flatten ∧
    scrape_requests pfFetchEmptyAt2 2 = 2 :=
  scrape_pagination_termination pfFetchEmptyAt2 pfEntriesEx 2 2 (by decide)
    (fun k h1 h2 => by
      have hk : k = 1 := by omega
      subst hk
      exact ⟨rfl, by decide⟩)
    rfl (by decide)

/-- C6: when requesting page `K` fails with a transport or status error
(pages `1..K-1` being successful and non-empty), the lookup returns exactly
the records collected from pages `1..K-1`. -/
theorem scrape_partial_on_error (fetch : Nat → PageResult)
    (entries : Nat → List Statement) (K fuel : Nat) (hK : 1 ≤ K)
    (hpages : ∀ k, 1 ≤ k → k < K →
      fetch k = PageResult.ok (entries k) ∧ entries k ≠ [])
    (herr : fetch K = PageResult.err) (hfuel : K ≤ fuel) :
    scrape_politifact_for_speaker fetch fuel =
      ((List.range (K - 1)).map (fun i => entries (i + 1))).flatten := by
  have hspec := scrapeGo_spec fetch entries (K - 1) 1 [] fuel
    (fun i hi => by
      have := hpages (1 + i) (by omega) (by omega)
      exact this)
    (by rw [show 1 + (K - 1) = K by omega]; exact Or.inl herr)
    (by omega)
  have hfun : (fun i => entries (1 + i)) = fun i => entries (i + 1) := by
    funext i
    congr 1
    omega
  rw [scrape_politifact_for_speaker, hspec]
  simp only [List.nil_append, hfun]

/-- Concrete paginated site for the C6 witness: page 1 has one record,
requesting page 2 raises a transport error. -/
def pfFetchErrAt2 (k : Nat) : PageResult :=
  if k = 1 then PageResult.ok [⟨"t", "True"⟩] else PageResult.err

/-- Witness for C6: an error on page `K = 2` yields page 1's records. -/
theorem scrape_partial_on_error_witness :
    scrape_politifact_for_speaker pfFetchErrAt2 2 =
      ((List.range 1).map (fun i => pfEntriesEx (i + 1))).flatten :=
  scrape_partial_on_error pfFetchErrAt2 pfEntriesEx 2 2 (by decide)
    (fun k h1 h2 => by
      have hk : k = 1 := by omega
      subst hk
      exact ⟨rfl, by decide⟩)
    rfl (by decide)

/-- `[A-Z]` of the pattern in `identify_speakers`. -/
def isUpperAZ (c : Char) : Bool := decide ('A' ≤ c) && decide (c ≤ 'Z')

/-- `[a-z]` of the pattern in `identify_speakers`. -/
def isLowerAZ (c : Char) : Bool := decide ('a' ≤ c) && decide (c ≤ 'z')

/-- `[0-9]`, needed for the word-character class behind `\b`. -/
def isDigitChar (c : Char) : Bool := decide ('0' ≤ c) && decide (c ≤ '9')

/-- A regex word character `\w` (`[A-Za-z0-9_]`); Unicode word characters
outside ASCII are not modelled (the inputs of the claims are ASCII). -/
def isWordChar (c : Char) : Bool :=
  isUpperAZ c || isLowerAZ c || isDigitChar c || c == '_'

/-- A regex whitespace character `\s`, restricted to the ASCII range. -/
def isSpaceChar (c : Char) : Bool :=
  c == ' ' || c == '\t' || c == '\n' || c == '\r' || c == '\x0b' || c == '\x0c'

/-- `' '.join(...)` applied to a string, as `identify_speakers` does when the
pipeline hands it the already-concatenated statement text: Python iterates
the characters, so a single space is interleaved between every two of them. -/
def sjoinChars : List Char → List Char
  | [] => []
  | [c] => [c]
  | c :: cs => c :: ' ' :: sjoinChars cs

/-- One attempted match of `\b[A-Z][a-z]*\s[A-Z][a-z]*\b` at the head of `l`.
`prevWord` states whether the character before `l` is a word character
(`false` at the start of the text). Both `[a-z]*` runs are maximal: each is
followed by a class disjoint from `[a-z]`, so regex backtracking can never
succeed with a shorter run. Returns the matched characters and the rest. -/
def tryMatchSpk (prevWord : Bool) (l : List Char) :
    Option (List Char × List Char) :=
  match l with
  | [] => none
  | c :: cs =>
    if prevWord || !isUpperAZ c then none
    else
      let s1 := cs.span isLowerAZ
      match s1.2 with
      | [] => none
      | sp :: rest2 =>
        if !isSpaceChar sp then none
        else
          match rest2 with
          | [] => none
          | d :: rest3 =>
            if !isUpperAZ d then none
            else
              let s2 := rest3.span isLowerAZ
              match s2.2 with
              | [] => some (c :: s1.1 ++ sp :: d :: s2.1, [])
              | e :: rest4 =>
                if isWordChar e then none
                else some (c :: s1.1 ++ sp :: d :: s2.1, e :: rest4)

/-- Left-to-right scan of `re.findall`: try a match at every position and
resume after each non-overlapping match. Each step consumes at least one
character, so `fuel = length + 1` never runs out. -/
def findallSpkGo (fuel : Nat) (prevWord : Bool) (l : List Char) :
    List (List Char) :=
  match fuel, l with
  | 0, _ => []
  | _ + 1, [] => []
  | fuel + 1, c :: cs =>
    match tryMatchSpk prevWord (c :: cs) with
    | some (m, rest) => m :: findallSpkGo fuel true rest
    | none => findallSpkGo fuel (isWordChar c) cs

/-- `re.findall(r'\b[A-Z][a-z]*\s[A-Z][a-z]*\b', ...)` on a character list. -/
def findallSpk (l : List Char) : List (List Char) :=
  findallSpkGo (l.length + 1) false l

/-- The raw match list built inside `identify_speakers` when the pipeline
passes it the concatenated statement text: the name pattern is run on
`' '.join` of the *characters* of that text. -/
def speaker_matches (s : String) : List String :=
  (findallSpk (sjoinChars s.data)).map String.mk

/-- `identify_speakers` as invoked by `analyze_speakers_in_article`:
`list(set(matches))`, modelled as deduplication keeping first occurrences
(Python's set order is unspecified and no claim depends on order). -/
def identify_speakers (s : String) : List String :=
  (speaker_matches s).dedup

/-- C1 (failing input): invoked as the pipeline does, `identify_speakers`
returns the empty collection on `"John Smith said this"`, because the extra
`' '.join` over the characters separates `n` and `S` by three spaces and the
pattern requires a single whitespace; the pattern itself, run on the text
without that join, does find `"John Smith"`. -/
theorem identify_speakers_pipeline_misses_name :
    identify_speakers "John Smith said this" = [] ∧
    (findallSpk ("John Smith said this".data)).map String.mk =
      ["John Smith"] := by
  constructor
  · rfl
  · rfl

/-- C9: the collection returned by `identify_speakers` has no duplicates,
and membership agrees with the raw match list (dedup by string equality). -/
theorem identify_speakers_no_duplicates :
    ∀ s : String, (identify_speakers s).Nodup ∧
      ∀ m : String, m ∈ identify_speakers s ↔ m ∈ speaker_matches s :=
  fun _ => ⟨List.nodup_dedup _, fun _ => List.mem_dedup⟩

/-- The scanning automaton of `re.findall(r'"([^"]*)"', article_text)`:
outside a quote (`none`) it searches for an opening `"`; inside (`some acc`)
it accumulates the group characters until the closing `"`. A trailing
unterminated group is discarded, exactly as the regex finds no further
match. -/
def scanQuotes : List Char → Option (List Char) → List String
  | [], _ => []
  | c :: cs, none =>
    if c = '"' then scanQuotes cs (some []) else scanQuotes cs none
  | c :: cs, some acc =>
    if c = '"' then String.mk acc :: scanQuotes cs none
    else scanQuotes cs (some (acc ++ [c]))

/-- `get_article_text`, with the network response passed in: `none` models a
`requests.RequestException` (the source prints the error and returns
`None`); `some text` models a successful fetch whose parsed paragraph texts
concatenate to `text`. -/
def get_article_text (response : Option String) : Option (List String) :=
  match response with
  | none => none
  | some article_text => some (scanQuotes article_text.data none)

/-- Declarative reading of the claim, for comparison: split the text at
every `"`. -/
def splitQuote : List Char → List (List Char)
  | [] => [[]]
  | c :: cs =>
    if c = '"' then [] :: splitQuote cs
    else (c :: (splitQuote cs).headD []) :: (splitQuote cs).tail

/-- Every second segment, as long as a complete pair remains: these are the
segments enclosed by a matched pair of quotes. -/
def altPairs : List (List Char) → List (List Char)
  | [] => []
  | [_] => []
  | x :: _ :: rest => x :: altPairs rest

/-- Modelled from the claim's words: the substrings enclosed in double
quotation marks, in order — the odd-indexed segments of the text split at
`"`, keeping only segments whose closing quote exists. -/
def specQuotedSubstrings (l : List Char) : List (List Char) :=
  altPairs (splitQuote l).tail

theorem splitQuote_ne_nil (l : List Char) : splitQuote l ≠ [] := by
  cases l with
  | nil => simp [splitQuote]
  | cons c cs =>
    by_cases h : c = '"' <;> simp [splitQuote, h]

/-- The scanner agrees with the declarative split in both states. -/
theorem scanQuotes_eq_split (l : List Char) :
    (scanQuotes l none =
      (altPairs (splitQuote l).tail).map String.mk) ∧
    ∀ acc : List Char, scanQuotes l (some acc) =
      if (splitQuote l).tail = [] then []
      else String.mk (acc ++ (splitQuote l).headD []) ::
        (altPairs (splitQuote l).tail.tail).map String.mk := by
  induction l with
  | nil =>
    constructor
    · simp [scanQuotes, splitQuote, altPairs]
    · intro acc
      simp [scanQuotes, splitQuote]
  | cons c cs ih =>
    obtain ⟨ihout, ihin⟩ := ih
    obtain ⟨s, ss, hsplit⟩ : ∃ s ss, splitQuote cs = s :: ss := by
      cases h : splitQuote cs with
      | nil => exact absurd h (splitQuote_ne_nil cs)
      | cons s ss => exact ⟨s, ss, rfl⟩
    by_cases hc : c = '"'
    · constructor
      · rw [show scanQuotes (c :: cs) none = scanQuotes cs (some []) by
          simp [scanQuotes, hc]]
        rw [ihin []]
        simp only [splitQuote, hc, if_pos, hsplit]
        cases ss with
        | nil => simp [altPairs]
        | cons t ts => simp [altPairs]
      · intro acc
        rw [show scanQuotes (c :: cs) (some acc) =
            String.mk acc :: scanQuotes cs none by simp [scanQuotes, hc]]
        rw [ihout]
        simp [splitQuote, hc, hsplit]
    · constructor
      · rw [show scanQuotes (c :: cs) none = scanQuotes cs none by
          simp [scanQuotes, hc]]
        rw [ihout]
        simp [splitQuote, hc, hsplit]
      · intro acc
        rw [show scanQuotes (c :: cs) (some acc) =
            scanQuotes cs (some (acc ++ [c])) by simp [scanQuotes, hc]]
        rw [ihin (acc ++ [c])]
        simp only [splitQuote, hc, if_neg, hsplit, List.headD_cons,
          List.tail_cons]
        cases ss with
        | nil => simp
        | cons t ts => simp [List.append_assoc]

/-- C7: on a successful fetch, quote extraction returns exactly the ordered
substrings enclosed in double quotation marks of the paragraph text, and on
`He said "hello" and "world"` it yields `["hello", "world"]`. -/
theorem get_article_text_quotes :
    (∀ text : String, get_article_text (some text) =
      some ((specQuotedSubstrings text.data).map String.mk)) ∧
    get_article_text (some "He said \"hello\" and \"world\"") =
      some ["hello", "world"] := by
  constructor
  · intro text
    rw [get_article_text, specQuotedSubstrings]
    rw [(scanQuotes_eq_split text.data).1]
  · rfl

/-- The filesystem state `main` touches: the set of existing directories and
a file store in which the most recent write of a path shadows older ones
(`List.lookup` finds the newest entry first, modelling overwrite). -/
structure FS where
  dirs : List String
  files : List (String × String)

/-- `os.path.join(a, b)` for the relative file name used by `main`. -/
def pathJoin (a b : String) : String :=
  if a = "" then b
  else if a.data.getLast? = some '/' then a ++ b
  else a ++ "/" ++ b

/-- `os.makedirs(d, exist_ok=True)`: creates the directory if absent and is
a no-op if it already exists (intermediate directories are abstracted into
the single entry). -/
def makedirs (d : String) (fs : FS) : FS :=
  if d ∈ fs.dirs then fs else ⟨d :: fs.dirs, fs.files⟩

/-- `open(file_path, 'w')` followed by a full write: records the new content
for the path, shadowing any prior file. -/
def writeFS (p content : String) (fs : FS) : FS :=
  ⟨fs.dirs, (p, content) :: fs.files⟩

theorem makedirs_files (d : String) (fs : FS) : (makedirs d fs).files = fs.files := by
  unfold makedirs
  split <;> rfl

/-- `json.dump` escaping for the characters that could occur in a key;
control-character escapes are not modelled (speaker names matched by the
name pattern contain only letters and a space). -/
def jsonEscChar (c : Char) : String :=
  if c = '"' then "\\\"" else if c = '\\' then "\\\\" else String.mk [c]

def jsonEscape (s : String) : String :=
  String.join (s.data.map jsonEscChar)

/-- `json.dump(speaker_scores, file, indent=4)`: `\x7b\x7d` for the empty
dict, otherwise one `"key": value` line per entry, indented four spaces and
separated by `,\n`. The rendering of a numeric score (Python's float/int
`repr`) is abstracted as the parameter `render`. -/
def jsonDumpScores (render : ℚ → String) : List (String × ℚ) → String
  | [] => "\x7b\x7d"
  | scores =>
    "\x7b\n" ++
      String.intercalate ",\n"
        (scores.map (fun kv =>
          "    \"" ++ jsonEscape kv.1 ++ "\": " ++ render kv.2)) ++
      "\n\x7d"

/-- The output steps of `main` after the analysis: compute the file path,
ensure the output directory exists, and write the serialized mapping. -/
def write_results (render : ℚ → String) (scores : List (String × ℚ))
    (output : String) (fs : FS) : FS :=
  let file_path := pathJoin output "speaker_scores.json"
  let fs1 := makedirs output fs
  writeFS file_path (jsonDumpScores render scores) fs1

/-- `analyze_speakers_in_article`, with both network dependencies passed in:
the article response and, per speaker name, the paginated Politifact
responses. Returns the `speaker_scores` mapping in insertion order. -/
def analyze_speakers_in_article (articleResponse : Option String)
    (pfFetch : String → Nat → PageResult) (fuel : Nat) :
    List (String × ℚ) :=
  match get_article_text articleResponse with
  | none => []
  | some article_text =>
    let speakers := identify_speakers (String.intercalate " " article_text)
    speakers.map (fun speaker =>
      (speaker, calculate_speaker_score
        (scrape_politifact_for_speaker (pfFetch speaker) fuel)))

/-- `main` on a parsed command line: analyze the article at the given URL
(its response modelled by `articleResponse`) and write the scores under the
chosen output directory. -/
def pf_main (render : ℚ → String) (articleResponse : Option String)
    (pfFetch : String → Nat → PageResult) (fuel : Nat) (output : String)
    (fs : FS) : FS :=
  write_results render
    (analyze_speakers_in_article articleResponse pfFetch fuel) output fs

/-- C5: when fetching the article fails, the speaker-score mapping is empty
and `main` still writes `speaker_scores.json` containing the empty JSON
object. -/
theorem fetch_failure_writes_empty_json :
    ∀ (render : ℚ → String) (pfFetch : String → Nat → PageResult)
      (fuel : Nat) (output : String) (fs : FS),
    analyze_speakers_in_article none pfFetch fuel = [] ∧
    List.lookup (pathJoin output "speaker_scores.json")
      (pf_main render none pfFetch fuel output fs).files =
        some "\x7b\x7d" := by
  intro render pfFetch fuel output fs
  refine ⟨rfl, ?_⟩
  show List.lookup _ (write_results _ _ _ _).files = _
  rw [write_results]
  simp [writeFS, makedirs_files, analyze_speakers_in_article,
    get_article_text, jsonDumpScores]

/-- C8: for every mapping and output directory, the result writer makes the
output directory exist (leaving the directory set unchanged when it already
does), writes the serialized mapping to `speaker_scores.json` in that
directory shadowing any prior file there, and touches no other path. -/
theorem write_results_spec :
    ∀ (render : ℚ → String) (scores : List (String × ℚ)) (output : String)
      (fs : FS),
    output ∈ (write_results render scores output fs).dirs ∧
    (output ∈ fs.dirs → (write_results render scores output fs).dirs = fs.dirs) ∧
    List.lookup (pathJoin output "speaker_scores.json")
      (write_results render scores output fs).files =
        some (jsonDumpScores render scores) ∧
    ∀ p : String, p ≠ pathJoin output "speaker_scores.json" →
      List.lookup p (write_results render scores output fs).files =
        List.lookup p fs.files := by
  intro render scores output fs
  refine ⟨?_, ?_, ?_, ?_⟩
  · show output ∈ (makedirs output fs).dirs
    unfold makedirs
    split
    · assumption
    · exact List.mem_cons_self output fs.dirs
  · intro hmem
    show (makedirs output fs).dirs = fs.dirs
    unfold makedirs
    rw [if_pos hmem]
  · show List.lookup _ ((pathJoin output "speaker_scores.json",
      jsonDumpScores render scores) :: (makedirs output fs).files) = _
    simp [List.lookup]
  · intro p hp
    show List.lookup p ((pathJoin output "speaker_scores.json",
      jsonDumpScores render scores) :: (makedirs output fs).files) = _
    rw [makedirs_files]
    simp [List.lookup, beq_eq_false_iff_ne.mpr hp]

/-- Witness for C8: an unrelated file is untouched by the writer. -/
theorem write_results_spec_witness :
    List.lookup "other.txt"
      (write_results (fun _ => "0") [("A B", 1)] "out"
        ⟨["out"], [("other.txt", "old")]⟩).files =
      List.lookup "other.txt"
        (FS.mk ["out"] [("other.txt", "old")]).files :=
  (write_results_spec (fun _ => "0") [("A B", 1)] "out"
    ⟨["out"], [("other.txt", "old")]⟩).2.2.2 "other.txt" (by decide)
